import Mathlib

/-!
# Verification of the cadence-beats BPM enrichment pipeline

Shallow embedding of `src/cadence_beats/bpm.py` and
`src/cadence_beats/garmin.py`, with theorems checking the
natural-language specification against the code.

Modelling conventions:
* The SQLite table `bpm_cache` (one row per primary key `track_id`) is an
  association list `Cache`; `INSERT OR REPLACE` replaces the row with the
  same key in place.
* Python floats (BPM/tempo values) are modelled as `Rat`; the only float
  arithmetic the code performs on them is `* 2` and `/ 2`, which is exact.
* The HTTP environment of `search_bpm` is a pair of optional responses
  (`none` = transport failure caught as `requests.RequestException`); a
  response body is `none` when `.json()` raises (malformed payload).
  The `tempo` field is modelled as an optional number; Python truthiness
  (`if tempo:`) makes a present `0` fall to the not-found branch.
* `click.echo` console output of `scan_for_bpms` is modelled separately
  (`missingEchoLines`); the function's return value is its `stats` dict.
-/

/-! ## SQLite cache (`bpm.py` lines 14-63) -/

/-- One row of the `bpm_cache` table, minus the primary key:
`track_name`, `artist`, nullable `bpm`. -/
structure CacheRow where
  track_name : String
  artist : String
  bpm : Option Rat
deriving DecidableEq

/-- The `bpm_cache` table: at most one row per `track_id` (primary key). -/
abbrev Cache := List (String × CacheRow)

/-- `SELECT ... FROM bpm_cache WHERE track_id = ?` — the row for a key. -/
def lookupRow : Cache → String → Option CacheRow
  | [], _ => none
  | (i, r) :: rest, tid => if i = tid then some r else lookupRow rest tid

/-- `get_cached_bpm` (`bpm.py` 34-38): `row[0] if row else None`.
Returns the row's `bpm` column, which is itself `None` for a cached miss,
so a missing row and a null-bpm row both yield `none`. -/
def get_cached_bpm (conn : Cache) (track_id : String) : Option Rat :=
  match lookupRow conn track_id with
  | some r => r.bpm
  | none => none

/-- `set_cached_bpm` (`bpm.py` 41-53): `INSERT OR REPLACE` keyed on
`track_id`. -/
def set_cached_bpm : Cache → String → String → String → Option Rat → Cache
  | [], tid, nm, ar, b => [(tid, ⟨nm, ar, b⟩)]
  | (i, r) :: rest, tid, nm, ar, b =>
    if i = tid then (tid, ⟨nm, ar, b⟩) :: rest
    else (i, r) :: set_cached_bpm rest tid nm ar b

/-- `get_all_cached` (`bpm.py` 56-63): rows `WHERE bpm IS NOT NULL`. -/
def get_all_cached (conn : Cache) : Cache :=
  conn.filter (fun e => e.2.bpm.isSome)

/-- The three-way cache state of §4.2 of the spec
(Unknown / ConfirmedAbsent / Known). -/
inductive TempoState where
  | unknown
  | confirmedAbsent
  | known (v : Rat)
deriving DecidableEq

/-- The combined read the scanner performs per track: the value query
(`get_cached_bpm`) plus the row-existence query (`bpm.py` 171-173),
which together distinguish the three cache states. -/
def tempoState (conn : Cache) (tid : String) : TempoState :=
  match lookupRow conn tid with
  | none => .unknown
  | some r =>
    match r.bpm with
    | none => .confirmedAbsent
    | some v => .known v

/-! ## Tempo lookup client (`bpm.py` 96-145) -/

/-- Result of one `search_bpm` call as the scanner's loop discriminates it:
`"RATE_LIMITED"` sentinel, a float, or `None`. -/
inductive LookupResult where
  | value (tempo : Rat)
  | notFound
  | rateLimited
deriving DecidableEq

/-- The two HTTP exchanges of one `search_bpm` call.
`searchResp`/`detailResp` are `none` on transport failure (the caught
`requests.RequestException`); otherwise `(status, body)` where the body is
`none` when `.json()` raises on a malformed payload.  The search body is
the `"search"` array, each element reduced to its `"id"` field (`none` =
missing).  The detail body is the `"song"."tempo"` field (`none` =
missing), modelled as an optional number. -/
structure HttpEnv where
  searchResp : Option (Nat × Option (List (Option String)))
  detailResp : Option (Nat × Option (Option Rat))
deriving DecidableEq

/-- `search_bpm` (`bpm.py` 96-145) over one `HttpEnv`.
Status 429 maps to `rateLimited` on either phase; any other non-200
status, a missing/empty result list, a falsy song id, a malformed body or
a falsy tempo field maps to `notFound`; a truthy tempo is returned
unvalidated (`float(tempo)`). -/
def search_bpm (env : HttpEnv) : LookupResult :=
  match env.searchResp with
  | none => .notFound
  | some (status, body) =>
    if status = 429 then .rateLimited
    else if status ≠ 200 then .notFound
    else
      match body with
      | none => .notFound
      | some results =>
        match results with
        | [] => .notFound
        | first :: _ =>
          match first with
          | none => .notFound
          | some song_id =>
            if song_id = "" then .notFound
            else
              match env.detailResp with
              | none => .notFound
              | some (dstatus, dbody) =>
                if dstatus = 429 then .rateLimited
                else if dstatus ≠ 200 then .notFound
                else
                  match dbody with
                  | none => .notFound
                  | some tempoField =>
                    match tempoField with
                    | none => .notFound
                    | some t => if t = 0 then .notFound else .value t

/-! ## Enrichment scanner (`bpm.py` 148-216) -/

/-- A track as the scanner reads it: `id`, `name`, `artist`. -/
structure Track where
  id : String
  track_name : String
  artist : String
deriving DecidableEq

/-- The `stats` dict `scan_for_bpms` returns
(`{"found", "not_found", "cached", "rate_limited"}`). -/
structure Stats where
  found : Nat
  not_found : Nat
  cached : Nat
  rate_limited : Bool
deriving DecidableEq

/-- Full state of one `scan_for_bpms` invocation: the stats, the cache
connection, the `missing_songs` list, the `api_calls` counter, and the
tracks for which `search_bpm` was actually called (`lookedUp`, the model
of "lookup-client calls performed"). -/
structure ScanState where
  stats : Stats
  conn : Cache
  missing_songs : List String
  api_calls : Nat
  lookedUp : List Track
deriving DecidableEq

/-- The `f"  {track.artist} - {track.name}"` description appended to
`missing_songs`. -/
def trackDesc (t : Track) : String :=
  "  " ++ t.artist ++ " - " ++ t.track_name

/-- The `for i, track in enumerate(tracks)` loop of `scan_for_bpms`
(`bpm.py` 164-205), parameterised by the lookup client (called with
`track.name, track.artist`).  On `RATE_LIMITED` the loop `break`s without
persisting the track's state and without bumping `api_calls` (though the
client was called, so the track is recorded in `lookedUp`). -/
def scanGo (lookup : String → String → LookupResult) :
    List Track → ScanState → ScanState
  | [], st => st
  | t :: ts, st =>
    match get_cached_bpm st.conn t.id with
    | some _ =>
      scanGo lookup ts
        { st with stats := { st.stats with cached := st.stats.cached + 1 } }
    | none =>
      match lookupRow st.conn t.id with
      | some _ =>
        scanGo lookup ts
          { st with
            stats := { st.stats with not_found := st.stats.not_found + 1 },
            missing_songs := st.missing_songs ++ [trackDesc t] }
      | none =>
        match lookup t.track_name t.artist with
        | .rateLimited =>
          { st with
            stats := { st.stats with rate_limited := true },
            lookedUp := st.lookedUp ++ [t] }
        | .value v =>
          scanGo lookup ts
            { st with
              stats := { st.stats with found := st.stats.found + 1 },
              conn := set_cached_bpm st.conn t.id t.track_name t.artist (some v),
              api_calls := st.api_calls + 1,
              lookedUp := st.lookedUp ++ [t] }
        | .notFound =>
          scanGo lookup ts
            { st with
              stats := { st.stats with not_found := st.stats.not_found + 1 },
              conn := set_cached_bpm st.conn t.id t.track_name t.artist none,
              missing_songs := st.missing_songs ++ [trackDesc t],
              api_calls := st.api_calls + 1,
              lookedUp := st.lookedUp ++ [t] }

/-- The scanner's initial state (`bpm.py` 160-162). -/
def initScanState (conn : Cache) : ScanState :=
  ⟨⟨0, 0, 0, false⟩, conn, [], 0, []⟩

/-- One whole `scan_for_bpms` invocation, with the full final state. -/
def scanFull (lookup : String → String → LookupResult)
    (tracks : List Track) (conn : Cache) : ScanState :=
  scanGo lookup tracks (initScanState conn)

/-- The value `scan_for_bpms` returns to the caller: `return stats`
(`bpm.py` 216). -/
def scan_for_bpms (lookup : String → String → LookupResult)
    (tracks : List Track) (conn : Cache) : Stats :=
  (scanFull lookup tracks conn).stats

/-- The `click.echo` lines for `missing_songs` (`bpm.py` 209-214): a
header, the first 20 entries, and a "... and N more" line when
truncated.  (Leading newlines of the f-strings are dropped; each list
element is one echoed line.) -/
def missingEchoLines (missing : List String) : List String :=
  if missing.isEmpty then []
  else
    ("Songs with no BPM found (" ++ toString missing.length ++ "):")
      :: missing.take 20
      ++ (if 20 < missing.length then
            ["  ... and " ++ toString (missing.length - 20) ++ " more"]
          else [])

/-- The console display of one scan's unmatched tracks. -/
def scanMissingEcho (lookup : String → String → LookupResult)
    (tracks : List Track) (conn : Cache) : List String :=
  missingEchoLines (scanFull lookup tracks conn).missing_songs

/-! ## Zone calculator (`garmin.py` 12-17, 90-114, 131-173) -/

/-- `FIXED_ZONES` (`garmin.py` 12-17). -/
def FIXED_ZONES : List (String × Int × Int) :=
  [("Easy", 150, 165), ("Moderate", 165, 175),
   ("Tempo", 175, 185), ("Speed", 185, 200)]

/-- `idx = int(p / 100 * n); idx = min(idx, n - 1)` (`garmin.py` 98-100),
in exact arithmetic: `⌊p·n/100⌋` clamped to `n - 1`. -/
def percentileIdx (n p : Nat) : Nat :=
  min (p * n / 100) (n - 1)

/-- `percentile(p)` of `calculate_zones`: the clamped nearest-rank element
of the ascending-sorted samples. -/
def percentile (sorted_cadence : List Int) (p : Nat) : Int :=
  sorted_cadence.getD (percentileIdx sorted_cadence.length p) 0

/-- `calculate_zones` (`garmin.py` 90-114): sort ascending, take the
25/50/75/90th nearest-rank percentiles, emit the four bands; Speed's high
bound is `max(sorted_cadence[-1], p90 + 10)`. -/
def calculate_zones (all_cadence : List Int) : List (String × Int × Int) :=
  let sorted_cadence := List.insertionSort (· ≤ ·) all_cadence
  let p25 := percentile sorted_cadence 25
  let p50 := percentile sorted_cadence 50
  let p75 := percentile sorted_cadence 75
  let p90 := percentile sorted_cadence 90
  [("Easy", p25, p50), ("Moderate", p50, p75), ("Tempo", p75, p90),
   ("Speed", p90,
     max (sorted_cadence.getD (sorted_cadence.length - 1) 0) (p90 + 10))]

/-- The zone-selection flow of `analyze_runs` (`garmin.py` 146-167):
`fitData` is the per-FIT-file output of `parse_cadence_from_fit`;
`all_cadence` is their concatenation; with no cadence at all the command
aborts (`none`); otherwise `num_runs = len(fit_paths)` — the number of
FIT files, contributing or not — selects the fixed table below 10. -/
def analyze_runs (fitData : List (List Int)) : Option (List (String × Int × Int)) :=
  let all_cadence := fitData.flatten
  if all_cadence.isEmpty then none
  else some (if fitData.length < 10 then FIXED_ZONES else calculate_zones all_cadence)

/-! ## Zone matcher (`bpm.py` 221-235) -/

/-- `low <= candidate <= high` for one candidate. -/
def inBounds (low high c : Rat) : Bool :=
  decide (low ≤ c) && decide (c ≤ high)

/-- `match_to_zone` (`bpm.py` 221-235): for each zone in iteration order,
append its name the first time one of the candidates
`[bpm, bpm * 2, bpm / 2]` lies within its inclusive bounds. -/
def match_to_zone (bpm : Rat) : List (String × Rat × Rat) → List String
  | [] => []
  | (zone_name, low, high) :: rest =>
    if [bpm, bpm * 2, bpm / 2].any (fun c => inBounds low high c)
    then zone_name :: match_to_zone bpm rest
    else match_to_zone bpm rest

/-! ## Helper lemmas -/

/-- The candidate test of `match_to_zone`, as a proposition. -/
theorem any_inBounds_iff (lo hi bpm : Rat) :
    ([bpm, bpm * 2, bpm / 2].any fun c => inBounds lo hi c) = true ↔
      ((lo ≤ bpm ∧ bpm ≤ hi) ∨ (lo ≤ bpm * 2 ∧ bpm * 2 ≤ hi) ∨
       (lo ≤ bpm / 2 ∧ bpm / 2 ≤ hi)) := by
  simp [inBounds]

/-- Membership characterisation of `match_to_zone`. -/
theorem match_to_zone_mem (bpm : Rat) (zones : List (String × Rat × Rat))
    (nm : String) :
    nm ∈ match_to_zone bpm zones ↔
      ∃ low high, (nm, low, high) ∈ zones ∧
        ((low ≤ bpm ∧ bpm ≤ high) ∨ (low ≤ bpm * 2 ∧ bpm * 2 ≤ high) ∨
         (low ≤ bpm / 2 ∧ bpm / 2 ≤ high)) := by
  induction zones with
  | nil => simp [match_to_zone]
  | cons z rest ih =>
    obtain ⟨zn, lo, hi⟩ := z
    rw [match_to_zone]
    by_cases hc : (lo ≤ bpm ∧ bpm ≤ hi) ∨ (lo ≤ bpm * 2 ∧ bpm * 2 ≤ hi) ∨
        (lo ≤ bpm / 2 ∧ bpm / 2 ≤ hi)
    · rw [if_pos ((any_inBounds_iff lo hi bpm).mpr hc)]
      simp only [List.mem_cons, ih]
      constructor
      · rintro (rfl | ⟨lo', hi', hm, hcand⟩)
        · exact ⟨lo, hi, Or.inl rfl, hc⟩
        · exact ⟨lo', hi', Or.inr hm, hcand⟩
      · rintro ⟨lo', hi', heq | hm', hcand⟩
        · left
          exact congrArg Prod.fst heq
        · right
          exact ⟨lo', hi', hm', hcand⟩
    · rw [if_neg (fun hb => hc ((any_inBounds_iff lo hi bpm).mp hb))]
      rw [ih]
      constructor
      · rintro ⟨lo', hi', hm, hcand⟩
        exact ⟨lo', hi', List.mem_cons_of_mem _ hm, hcand⟩
      · rintro ⟨lo', hi', hm, hcand⟩
        rcases List.mem_cons.mp hm with heq | hm'
        · injection heq with h1 h23
          injection h23 with h2 h3
          subst h2
          subst h3
          exact absurd hcand hc
        · exact ⟨lo', hi', hm', hcand⟩

/-- The matched names are a subsequence of the zone names in iteration
order. -/
theorem match_to_zone_sublist (bpm : Rat) (zones : List (String × Rat × Rat)) :
    (match_to_zone bpm zones).Sublist (zones.map Prod.fst) := by
  induction zones with
  | nil => simp [match_to_zone]
  | cons z rest ih =>
    obtain ⟨zn, lo, hi⟩ := z
    rw [match_to_zone]
    split
    · exact List.Sublist.cons₂ _ ih
    · exact List.Sublist.cons _ ih

/-! ## Claim C5 — zone matcher semantics -/

/-- C5: `match_to_zone` returns a zone's name iff one of the candidates
`tempo`, `tempo * 2`, `tempo / 2` lies within the zone's inclusive
bounds; all zones are checked (the spec's multi-zone example holds), and
the empty zone set yields the empty list for every tempo. -/
theorem C5_match_to_zone_spec :
    (∀ (bpm : Rat) (zones : List (String × Rat × Rat)) (nm : String),
        nm ∈ match_to_zone bpm zones ↔
          ∃ low high, (nm, low, high) ∈ zones ∧
            ((low ≤ bpm ∧ bpm ≤ high) ∨ (low ≤ bpm * 2 ∧ bpm * 2 ≤ high) ∨
             (low ≤ bpm / 2 ∧ bpm / 2 ≤ high))) ∧
    (∀ bpm : Rat, match_to_zone bpm [] = []) ∧
    match_to_zone 82 [("Easy", (150, 170)), ("Sprint", (39, 43))] =
      ["Easy", "Sprint"] := by
  refine ⟨match_to_zone_mem, fun bpm => rfl, ?_⟩
  norm_num [match_to_zone, inBounds]

/-! ## Claim C10 — no duplicate zone names in match results -/

/-- C10: with distinct zone names (a Python dict's keys), each name
appears at most once in `match_to_zone`'s result, and the result lists
the names in the zone set's iteration order (it is a subsequence of the
key list). -/
theorem C10_match_to_zone_nodup (bpm : Rat)
    (zones : List (String × Rat × Rat))
    (h : (zones.map Prod.fst).Nodup) :
    (match_to_zone bpm zones).Nodup ∧
      (match_to_zone bpm zones).Sublist (zones.map Prod.fst) :=
  ⟨h.sublist (match_to_zone_sublist bpm zones), match_to_zone_sublist bpm zones⟩

/-- C10 witness: the theorem applied to tempo 82 and a concrete one-zone
set. -/
theorem C10_match_to_zone_nodup_witness :
    (([("Easy", (150 : Rat), (170 : Rat))].map Prod.fst).Nodup) ∧
      ((match_to_zone 82 [("Easy", 150, 170)]).Nodup ∧
        (match_to_zone 82 [("Easy", 150, 170)]).Sublist
          ([("Easy", (150 : Rat), (170 : Rat))].map Prod.fst)) :=
  ⟨by decide, C10_match_to_zone_nodup 82 [("Easy", 150, 170)] (by decide)⟩

/-! ## Claim C3 — the store's get is not three-way on its own -/

/-- C3 counterexample: `get_cached_bpm` returns `none` both when no row
exists and when a row exists with null tempo, so Unknown and
ConfirmedAbsent are not distinguishable from its return value alone
(the row-existence query is what separates them). -/
theorem C3_get_counterexample :
    get_cached_bpm [] "t1" =
        get_cached_bpm [("t1", ⟨"Name", "Artist", none⟩)] "t1" ∧
    tempoState ([] : Cache) "t1" = .unknown ∧
    tempoState [("t1", (⟨"Name", "Artist", none⟩ : CacheRow))] "t1" =
        .confirmedAbsent := by
  refine ⟨rfl, rfl, rfl⟩

/-- C3 amended: `get_cached_bpm` alone distinguishes only Known from the
rest; the scanner's combined read (`tempoState`: value query plus
row-existence query) realises the three-way TempoState of the spec. -/
theorem C3_get_amended (conn : Cache) (tid : String) :
    (∀ v : Rat, get_cached_bpm conn tid = some v ↔
        tempoState conn tid = .known v) ∧
    (get_cached_bpm conn tid = none ↔
      (tempoState conn tid = .unknown ∨
        tempoState conn tid = .confirmedAbsent)) := by
  rcases hrow : lookupRow conn tid with _ | r
  · simp [get_cached_bpm, tempoState, hrow]
  · rcases hb : r.bpm with _ | v
    · simp [get_cached_bpm, tempoState, hrow, hb]
    · simp [get_cached_bpm, tempoState, hrow, hb]

/-! ## Claim C4 — zone calculator -/

/-- C4: on a non-empty sample list, `calculate_zones` returns exactly the
four bands whose bounds are the clamped nearest-rank percentiles of the
ascending-sorted samples, with Speed's high bound
`max(max(samples), p90 + 10)`; the clamped index is always in range. -/
theorem C4_calculate_zones_spec (all_cadence : List Int)
    (h : all_cadence ≠ []) :
    ∃ sc : List Int,
      List.Sorted (· ≤ ·) sc ∧
      List.Perm sc all_cadence ∧
      (∀ p : Nat, percentileIdx sc.length p < sc.length) ∧
      calculate_zones all_cadence =
        [("Easy", percentile sc 25, percentile sc 50),
         ("Moderate", percentile sc 50, percentile sc 75),
         ("Tempo", percentile sc 75, percentile sc 90),
         ("Speed", percentile sc 90,
           max (sc.getD (sc.length - 1) 0) (percentile sc 90 + 10))] := by
  refine ⟨List.insertionSort (· ≤ ·) all_cadence,
    List.sorted_insertionSort _ _, List.perm_insertionSort _ _, ?_, rfl⟩
  intro p
  have hlen : (List.insertionSort (· ≤ ·) all_cadence).length =
      all_cadence.length := (List.perm_insertionSort _ _).length_eq
  have hpos : 0 < all_cadence.length := List.length_pos.mpr h
  exact Nat.lt_of_le_of_lt (Nat.min_le_right _ _) (by omega)

/-- C4 witness: the theorem applied to the concrete sample list
`[170, 150, 160]`. -/
theorem C4_calculate_zones_spec_witness :
    (([170, 150, 160] : List Int) ≠ []) ∧
      (∃ sc : List Int,
        List.Sorted (· ≤ ·) sc ∧
        List.Perm sc ([170, 150, 160] : List Int) ∧
        (∀ p : Nat, percentileIdx sc.length p < sc.length) ∧
        calculate_zones [170, 150, 160] =
          [("Easy", percentile sc 25, percentile sc 50),
           ("Moderate", percentile sc 50, percentile sc 75),
           ("Tempo", percentile sc 75, percentile sc 90),
           ("Speed", percentile sc 90,
             max (sc.getD (sc.length - 1) 0) (percentile sc 90 + 10))]) :=
  ⟨by decide, C4_calculate_zones_spec [170, 150, 160] (by decide)⟩

/-! ## Claim C6 — fallback zone table selection -/

/-- Ten FIT files of which only the first contributed any samples. -/
def fdC6 : List (List Int) := [160] :: List.replicate 9 ([] : List Int)

/-- C6 counterexample: with 10 FIT files of which only 1 contributed
samples, the claim requires the fixed fallback table (contributing count
1 < 10) but the code computes percentile zones (`len(fit_paths) = 10`). -/
theorem C6_fallback_counterexample :
    fdC6.length = 10 ∧
    (fdC6.filter (fun l => !l.isEmpty)).length = 1 ∧
    analyze_runs fdC6 ≠ some FIXED_ZONES := by decide

/-- C6 amended: the fallback table is selected exactly when the number of
analyzed FIT files (contributing samples or not) is below 10; with 10 or
more files the percentile zones are computed from all collected samples. -/
theorem C6_fallback_amended (fitData : List (List Int))
    (h : fitData.flatten ≠ []) :
    (fitData.length < 10 → analyze_runs fitData = some FIXED_ZONES) ∧
    (10 ≤ fitData.length →
      analyze_runs fitData = some (calculate_zones fitData.flatten)) := by
  have he : fitData.flatten.isEmpty = false := by
    rcases hf : fitData.flatten with _ | ⟨a, l⟩
    · exact absurd hf h
    · rfl
  constructor
  · intro hn
    simp [analyze_runs, he, hn]
  · intro hn
    have hnlt : ¬ fitData.length < 10 := by omega
    simp [analyze_runs, he, hnlt]

/-- C6 witness: a single contributing FIT file selects the fixed table. -/
theorem C6_fallback_amended_witness :
    (([[160]] : List (List Int)).flatten ≠ []) ∧
      analyze_runs [[160]] = some FIXED_ZONES :=
  ⟨by decide, (C6_fallback_amended [[160]] (by decide)).1 (by decide)⟩

/-! ## Scanner lemmas -/

/-- Row update behaviour of `set_cached_bpm` (upsert on the primary key). -/
theorem lookupRow_set (c : Cache) (tid nm ar : String) (b : Option Rat)
    (j : String) :
    lookupRow (set_cached_bpm c tid nm ar b) j =
      if j = tid then some ⟨nm, ar, b⟩ else lookupRow c j := by
  induction c with
  | nil =>
    rcases eq_or_ne j tid with rfl | hj
    · simp [set_cached_bpm, lookupRow]
    · simp [set_cached_bpm, lookupRow, hj, Ne.symm hj]
  | cons e rest ih =>
    obtain ⟨i, r⟩ := e
    by_cases hi : i = tid
    · subst hi
      rcases eq_or_ne j i with rfl | hj
      · simp [set_cached_bpm, lookupRow]
      · simp [set_cached_bpm, lookupRow, hj, Ne.symm hj]
    · rcases eq_or_ne j tid with rfl | hj
      · simp [set_cached_bpm, lookupRow, hi, ih]
      · simp [set_cached_bpm, lookupRow, hi, hj, ih]

/-- The scanner's loop over `xs ++ ys` is the loop over `ys` started from
the state the loop over `xs` left, unless that prefix already halted on a
rate limit. -/
theorem scanGo_append (lookup : String → String → LookupResult)
    (xs ys : List Track) (st : ScanState)
    (h : st.stats.rate_limited = false) :
    scanGo lookup (xs ++ ys) st =
      if (scanGo lookup xs st).stats.rate_limited
      then scanGo lookup xs st
      else scanGo lookup ys (scanGo lookup xs st) := by
  induction xs generalizing st with
  | nil => simp [scanGo, h]
  | cons t ts ih =>
    rcases hg : get_cached_bpm st.conn t.id with _ | v
    · rcases hr : lookupRow st.conn t.id with _ | r
      · rcases hl : lookup t.track_name t.artist with v | _ | _
        · simp only [List.cons_append, scanGo, hg, hr, hl]
          exact ih _ (by simpa using h)
        · simp only [List.cons_append, scanGo, hg, hr, hl]
          exact ih _ (by simpa using h)
        · simp [scanGo, hg, hr, hl]
      · simp only [List.cons_append, scanGo, hg, hr]
        exact ih _ (by simpa using h)
    · simp only [List.cons_append, scanGo, hg]
      exact ih _ (by simpa using h)

/-- Rows are never deleted: a key present in the connection stays present
through any scan. -/
theorem scanGo_conn_mono (lookup : String → String → LookupResult)
    (ts : List Track) (st : ScanState) (tid : String)
    (h : (lookupRow st.conn tid).isSome) :
    (lookupRow (scanGo lookup ts st).conn tid).isSome := by
  induction ts generalizing st with
  | nil => simpa [scanGo] using h
  | cons u l ih =>
    rcases hg : get_cached_bpm st.conn u.id with _ | v
    · rcases hr : lookupRow st.conn u.id with _ | r
      · rcases hl : lookup u.track_name u.artist with v | _ | _
        · simp only [scanGo, hg, hr, hl]
          refine ih _ ?_
          rw [lookupRow_set]
          split_ifs with hEq
          · simp
          · exact h
        · simp only [scanGo, hg, hr, hl]
          refine ih _ ?_
          rw [lookupRow_set]
          split_ifs with hEq
          · simp
          · exact h
        · simp only [scanGo, hg, hr, hl]
          exact h
      · simp only [scanGo, hg, hr]
        exact ih _ h
    · simp only [scanGo, hg]
      exact ih _ h

/-- After a scan that did not halt on a rate limit, every input track has
a row in the final connection (Known or ConfirmedAbsent). -/
theorem scanGo_covers (lookup : String → String → LookupResult)
    (ts : List Track) (st : ScanState)
    (h : (scanGo lookup ts st).stats.rate_limited = false) :
    ∀ t ∈ ts, (lookupRow (scanGo lookup ts st).conn t.id).isSome := by
  induction ts generalizing st with
  | nil =>
    intro t ht
    cases ht
  | cons u l ih =>
    intro t ht
    rcases hg : get_cached_bpm st.conn u.id with _ | v
    · rcases hr : lookupRow st.conn u.id with _ | r
      · rcases hl : lookup u.track_name u.artist with v | _ | _
        · simp only [scanGo, hg, hr, hl] at h ⊢
          rcases List.mem_cons.mp ht with rfl | hmem
          · refine scanGo_conn_mono _ _ _ _ ?_
            rw [lookupRow_set]
            simp
          · exact ih _ h t hmem
        · simp only [scanGo, hg, hr, hl] at h ⊢
          rcases List.mem_cons.mp ht with rfl | hmem
          · refine scanGo_conn_mono _ _ _ _ ?_
            rw [lookupRow_set]
            simp
          · exact ih _ h t hmem
        · simp only [scanGo, hg, hr, hl] at h
          simp at h
      · simp only [scanGo, hg, hr] at h ⊢
        rcases List.mem_cons.mp ht with rfl | hmem
        · exact scanGo_conn_mono _ _ _ _ (by simp [hr])
        · exact ih _ h t hmem
    · have hrow : (lookupRow st.conn u.id).isSome := by
        unfold get_cached_bpm at hg
        rcases hrr : lookupRow st.conn u.id with _ | r
        · rw [hrr] at hg
          cases hg
        · simp
      simp only [scanGo, hg] at h ⊢
      rcases List.mem_cons.mp ht with rfl | hmem
      · exact scanGo_conn_mono _ _ _ _ hrow
      · exact ih _ h t hmem

/-- A scan in which every track already has a row performs no lookup, no
persist, no api call, and tallies every track as cached or not-found. -/
theorem scanGo_all_cached (lookup : String → String → LookupResult)
    (ts : List Track) (st : ScanState)
    (h : ∀ t ∈ ts, (lookupRow st.conn t.id).isSome) :
    (scanGo lookup ts st).conn = st.conn ∧
    (scanGo lookup ts st).lookedUp = st.lookedUp ∧
    (scanGo lookup ts st).api_calls = st.api_calls ∧
    (scanGo lookup ts st).stats.found = st.stats.found ∧
    (scanGo lookup ts st).stats.rate_limited = st.stats.rate_limited ∧
    (scanGo lookup ts st).stats.cached + (scanGo lookup ts st).stats.not_found =
      st.stats.cached + st.stats.not_found + ts.length := by
  induction ts generalizing st with
  | nil => simp [scanGo]
  | cons u l ih =>
    have hu : (lookupRow st.conn u.id).isSome := h u (List.mem_cons_self _ _)
    rcases hrr : lookupRow st.conn u.id with _ | r
    · rw [hrr] at hu
      cases hu
    · rcases hb : r.bpm with _ | v
      · have hg : get_cached_bpm st.conn u.id = none := by
          simp [get_cached_bpm, hrr, hb]
        simp only [scanGo, hg, hrr]
        obtain ⟨c1, c2, c3, c4, c5, c6⟩ :=
          ih { st with
                stats := { st.stats with not_found := st.stats.not_found + 1 },
                missing_songs := st.missing_songs ++ [trackDesc u] }
            (fun t ht => h t (List.mem_cons_of_mem _ ht))
        refine ⟨c1, c2, c3, c4, c5, ?_⟩
        rw [c6]
        simp [List.length_cons]
        try omega
      · have hg : get_cached_bpm st.conn u.id = some v := by
          simp [get_cached_bpm, hrr, hb]
        simp only [scanGo, hg]
        obtain ⟨c1, c2, c3, c4, c5, c6⟩ :=
          ih { st with
                stats := { st.stats with cached := st.stats.cached + 1 } }
            (fun t ht => h t (List.mem_cons_of_mem _ ht))
        refine ⟨c1, c2, c3, c4, c5, ?_⟩
        rw [c6]
        simp [List.length_cons]
        try omega

/-- The `missing_songs` list always holds exactly one description per
not-found tally. -/
theorem scanGo_missing_len (lookup : String → String → LookupResult)
    (ts : List Track) (st : ScanState)
    (h : st.missing_songs.length = st.stats.not_found) :
    (scanGo lookup ts st).missing_songs.length =
      (scanGo lookup ts st).stats.not_found := by
  induction ts generalizing st with
  | nil => simpa [scanGo] using h
  | cons u l ih =>
    rcases hg : get_cached_bpm st.conn u.id with _ | v
    · rcases hr : lookupRow st.conn u.id with _ | r
      · rcases hl : lookup u.track_name u.artist with v | _ | _
        · simp only [scanGo, hg, hr, hl]
          exact ih _ (by simpa using h)
        · simp only [scanGo, hg, hr, hl]
          refine ih _ ?_
          simp [h]
        · simp only [scanGo, hg, hr, hl]
          simpa using h
      · simp only [scanGo, hg, hr]
        refine ih _ ?_
        simp [h]
    · simp only [scanGo, hg]
      exact ih _ (by simpa using h)

/-- Every track recorded as looked up comes from the initial record or
from the scanned list. -/
theorem scanGo_lookedUp_mem (lookup : String → String → LookupResult)
    (ts : List Track) (st : ScanState) :
    ∀ t ∈ (scanGo lookup ts st).lookedUp, t ∈ st.lookedUp ∨ t ∈ ts := by
  induction ts generalizing st with
  | nil =>
    intro t ht
    exact Or.inl (by simpa [scanGo] using ht)
  | cons u l ih =>
    intro t ht
    rcases hg : get_cached_bpm st.conn u.id with _ | v
    · rcases hr : lookupRow st.conn u.id with _ | r
      · rcases hl : lookup u.track_name u.artist with v | _ | _
        · simp only [scanGo, hg, hr, hl] at ht
          rcases ih _ t ht with hin | hin
          · have hin' : t ∈ st.lookedUp ∨ t = u := by simpa using hin
            rcases hin' with h1 | rfl
            · exact Or.inl h1
            · exact Or.inr (List.mem_cons_self _ _)
          · exact Or.inr (List.mem_cons_of_mem _ hin)
        · simp only [scanGo, hg, hr, hl] at ht
          rcases ih _ t ht with hin | hin
          · have hin' : t ∈ st.lookedUp ∨ t = u := by simpa using hin
            rcases hin' with h1 | rfl
            · exact Or.inl h1
            · exact Or.inr (List.mem_cons_self _ _)
          · exact Or.inr (List.mem_cons_of_mem _ hin)
        · simp only [scanGo, hg, hr, hl] at ht
          have ht' : t ∈ st.lookedUp ∨ t = u := by simpa using ht
          rcases ht' with h1 | rfl
          · exact Or.inl h1
          · exact Or.inr (List.mem_cons_self _ _)
      · simp only [scanGo, hg, hr] at ht
        rcases ih _ t ht with hin | hin
        · exact Or.inl hin
        · exact Or.inr (List.mem_cons_of_mem _ hin)
    · simp only [scanGo, hg] at ht
      rcases ih _ t ht with hin | hin
      · exact Or.inl hin
      · exact Or.inr (List.mem_cons_of_mem _ hin)

/-! ## Claim C1 — idempotence of the enrichment scanner -/

/-- C1: after a non-rate-limited run, a second run over the same tracks
from the cache state the first run left makes zero lookup-client calls
(whatever the client would answer), performs no api call, persists
nothing, finds nothing new, and tallies every track as cached or
not-found. -/
theorem C1_scan_idempotent (lookup lookup2 : String → String → LookupResult)
    (tracks : List Track) (conn : Cache)
    (h : (scanFull lookup tracks conn).stats.rate_limited = false) :
    (scanFull lookup2 tracks (scanFull lookup tracks conn).conn).lookedUp = [] ∧
    (scanFull lookup2 tracks (scanFull lookup tracks conn).conn).api_calls = 0 ∧
    (scanFull lookup2 tracks (scanFull lookup tracks conn).conn).stats.found = 0 ∧
    (scanFull lookup2 tracks (scanFull lookup tracks conn).conn).stats.rate_limited
      = false ∧
    (scanFull lookup2 tracks (scanFull lookup tracks conn).conn).conn =
      (scanFull lookup tracks conn).conn ∧
    (scanFull lookup2 tracks (scanFull lookup tracks conn).conn).stats.cached +
      (scanFull lookup2 tracks (scanFull lookup tracks conn).conn).stats.not_found
      = tracks.length := by
  have hcov := scanGo_covers lookup tracks (initScanState conn) h
  obtain ⟨c1, c2, c3, c4, c5, c6⟩ :=
    scanGo_all_cached lookup2 tracks
      (initScanState (scanFull lookup tracks conn).conn) hcov
  exact ⟨c2, c3, c4, c5, c1, by simpa [scanFull, initScanState] using c6⟩

/-- Lookup client used by the C1 witness: every query misses. -/
def lkW1 : String → String → LookupResult := fun _ _ => .notFound

/-- Track list used by the C1 witness. -/
def trW1 : List Track := [⟨"id1", "Song", "Artist"⟩]

/-- C1 witness: the theorem applied to a concrete one-track batch whose
first run is not rate limited. -/
theorem C1_scan_idempotent_witness :
    (scanFull lkW1 trW1 []).stats.rate_limited = false ∧
      (scanFull lkW1 trW1 (scanFull lkW1 trW1 []).conn).lookedUp = [] :=
  ⟨by decide, (C1_scan_idempotent lkW1 lkW1 trW1 [] (by decide)).1⟩

/-! ## Claim C2 — rate-limit halt atomicity -/

/-- C2: if the k-th track is a cache miss and the client answers
RateLimited for it, the whole scan equals the scan of the first k tracks
with only the rate-limited flag set and the k-th track recorded as the
one further client call: nothing at or after position k is persisted (the
connection is exactly the prefix scan's), and no track after position k
is looked up. -/
theorem C2_rate_limit_halt (lookup : String → String → LookupResult)
    (tracks : List Track) (conn : Cache) (k : Nat) (hk : k < tracks.length)
    (hpre : (scanFull lookup (tracks.take k) conn).stats.rate_limited = false)
    (hmiss : lookupRow (scanFull lookup (tracks.take k) conn).conn
        (tracks.get ⟨k, hk⟩).id = none)
    (hrl : lookup (tracks.get ⟨k, hk⟩).track_name (tracks.get ⟨k, hk⟩).artist =
        .rateLimited) :
    scanFull lookup tracks conn =
      { scanFull lookup (tracks.take k) conn with
        stats := { (scanFull lookup (tracks.take k) conn).stats with
                     rate_limited := true },
        lookedUp := (scanFull lookup (tracks.take k) conn).lookedUp ++
          [tracks.get ⟨k, hk⟩] } ∧
    (∀ t ∈ (scanFull lookup tracks conn).lookedUp, t ∈ tracks.take (k + 1)) := by
  have hg : get_cached_bpm (scanFull lookup (tracks.take k) conn).conn
      (tracks.get ⟨k, hk⟩).id = none := by
    unfold get_cached_bpm
    rw [hmiss]
  have hsplit : tracks =
      tracks.take k ++ tracks.get ⟨k, hk⟩ :: tracks.drop (k + 1) := by
    conv_lhs => rw [← List.take_append_drop k tracks]
    congr 1
    rw [List.drop_eq_getElem_cons hk]
    simp [List.get_eq_getElem]
  have hmain : scanFull lookup tracks conn =
      { scanFull lookup (tracks.take k) conn with
        stats := { (scanFull lookup (tracks.take k) conn).stats with
                     rate_limited := true },
        lookedUp := (scanFull lookup (tracks.take k) conn).lookedUp ++
          [tracks.get ⟨k, hk⟩] } := by
    have hg' : get_cached_bpm
        (scanGo lookup (tracks.take k) (initScanState conn)).conn
        (tracks.get ⟨k, hk⟩).id = none := hg
    have hmiss' : lookupRow
        (scanGo lookup (tracks.take k) (initScanState conn)).conn
        (tracks.get ⟨k, hk⟩).id = none := hmiss
    conv_lhs => rw [hsplit]
    unfold scanFull
    rw [scanGo_append lookup _ _ _ rfl]
    have hflag : (scanGo lookup (tracks.take k) (initScanState conn)).stats.rate_limited
        = false := hpre
    rw [hflag]
    simp only [Bool.false_eq_true, if_false]
    simp only [scanGo, hg', hmiss', hrl]
  refine ⟨hmain, ?_⟩
  intro t ht
  rw [hmain] at ht
  have ht' : t ∈ (scanFull lookup (tracks.take k) conn).lookedUp ∨ t =
      tracks.get ⟨k, hk⟩ := by simpa using ht
  have htake : tracks.take (k + 1) =
      tracks.take k ++ [tracks.get ⟨k, hk⟩] := by
    rw [List.take_succ]
    congr 1
    rw [List.getElem?_eq_getElem hk]
    simp [List.get_eq_getElem]
  rcases ht' with h1 | rfl
  · rcases scanGo_lookedUp_mem lookup (tracks.take k) (initScanState conn) t h1
      with h2 | h2
    · cases h2
    · rw [htake]
      exact List.mem_append.mpr (Or.inl h2)
  · rw [htake]
    exact List.mem_append.mpr (Or.inr (List.mem_cons_self _ _))

/-- Lookup client used by the C2 witness: rate limited on the track named
t3, a miss otherwise. -/
def lkW2 : String → String → LookupResult :=
  fun nm _ => if nm = "t3" then .rateLimited else .notFound

/-- Five-track batch used by the C2 witness (the spec's 3rd-of-5
example). -/
def trW2 : List Track :=
  [⟨"i1", "t1", "a"⟩, ⟨"i2", "t2", "a"⟩, ⟨"i3", "t3", "a"⟩,
   ⟨"i4", "t4", "a"⟩, ⟨"i5", "t5", "a"⟩]

/-- C2 witness: the theorem applied to the concrete 5-track batch that is
rate limited on its 3rd track. -/
theorem C2_rate_limit_halt_witness :
    (scanFull lkW2 (trW2.take 2) []).stats.rate_limited = false ∧
      (scanFull lkW2 trW2 [] =
        { scanFull lkW2 (trW2.take 2) [] with
          stats := { (scanFull lkW2 (trW2.take 2) []).stats with
                       rate_limited := true },
          lookedUp := (scanFull lkW2 (trW2.take 2) []).lookedUp ++
            [trW2.get ⟨2, by decide⟩] } ∧
       (∀ t ∈ (scanFull lkW2 trW2 []).lookedUp, t ∈ trW2.take 3)) :=
  ⟨by decide,
   C2_rate_limit_halt lkW2 trW2 [] 2 (by decide) (by decide) (by decide)
     (by decide)⟩

/-! ## Claim C7 — scan outcome completeness -/

/-- Lookup client used by the C7 counterexample: every query misses. -/
def lkNF : String → String → LookupResult := fun _ _ => .notFound

/-- C7 counterexample: two batches whose unmatched track descriptions
differ give identical return values of `scan_for_bpms`, so the returned
value does not contain the unmatched-track list — the code only echoes it
to the console (`bpm.py` 209-214) and returns the four counters. -/
theorem C7_outcome_counterexample :
    scan_for_bpms lkNF [⟨"i1", "A", "X"⟩] [] =
        scan_for_bpms lkNF [⟨"i1", "B", "Y"⟩] [] ∧
      (scanFull lkNF [⟨"i1", "A", "X"⟩] []).missing_songs ≠
        (scanFull lkNF [⟨"i1", "B", "Y"⟩] []).missing_songs := by
  decide

/-- C7 amended: the returned outcome holds the count found, count
already cached, count confirmed-absent and the rate-limited flag; the
unmatched descriptions (one per not-found tally) are not returned but
echoed, capped at 20 entries plus a count-based "N more" line. -/
theorem C7_outcome_amended (lookup : String → String → LookupResult)
    (tracks : List Track) (conn : Cache) :
    scan_for_bpms lookup tracks conn = (scanFull lookup tracks conn).stats ∧
    (scanFull lookup tracks conn).missing_songs.length =
      (scanFull lookup tracks conn).stats.not_found ∧
    scanMissingEcho lookup tracks conn =
      (if (scanFull lookup tracks conn).stats.not_found = 0 then []
       else
         ("Songs with no BPM found (" ++
             toString (scanFull lookup tracks conn).stats.not_found ++ "):")
           :: (scanFull lookup tracks conn).missing_songs.take 20
           ++ (if 20 < (scanFull lookup tracks conn).stats.not_found then
                 ["  ... and " ++
                    toString
                      ((scanFull lookup tracks conn).stats.not_found - 20) ++
                    " more"]
               else [])) := by
  have hlen : (scanFull lookup tracks conn).missing_songs.length =
      (scanFull lookup tracks conn).stats.not_found :=
    scanGo_missing_len lookup tracks (initScanState conn) rfl
  refine ⟨rfl, hlen, ?_⟩
  unfold scanMissingEcho missingEchoLines
  rw [← hlen]
  by_cases hm : (scanFull lookup tracks conn).missing_songs = []
  · simp [hm]
  · have h1 : (scanFull lookup tracks conn).missing_songs.isEmpty = false := by
      simpa [List.isEmpty_iff] using hm
    have h2 : ¬ (scanFull lookup tracks conn).missing_songs.length = 0 := by
      simpa [List.length_eq_zero] using hm
    simp [h1, h2]

/-! ## Claim C8 — lookup result taxonomy and failure mapping -/

/-- C8 counterexample: a response whose tempo field is the number -100 is
passed through unvalidated, so the returned tempo is not a positive
real. -/
theorem C8_lookup_counterexample :
    search_bpm ⟨some (200, some [some "sid"]), some (200, some (some (-100)))⟩ =
      .value (-100) ∧
    ¬ (0 : Rat) < -100 := by
  constructor
  · rfl
  · norm_num

/-- C8 amended: `search_bpm` returns exactly one of Value, NotFound or
RateLimited; transport failure, a 429 on either phase, any other
non-success status, a malformed body, an empty result list, a missing id
and a missing tempo field map as the claim states, but a returned Value
carries any nonzero tempo the upstream sent (a truthy `tempo` passes
`float(tempo)` unvalidated), not necessarily a positive one. -/
theorem C8_lookup_amended :
    (∀ d, search_bpm ⟨none, d⟩ = .notFound) ∧
    (∀ b d, search_bpm ⟨some (429, b), d⟩ = .rateLimited) ∧
    (∀ s b d, s ≠ 429 → s ≠ 200 → search_bpm ⟨some (s, b), d⟩ = .notFound) ∧
    (∀ d, search_bpm ⟨some (200, none), d⟩ = .notFound) ∧
    (∀ d, search_bpm ⟨some (200, some []), d⟩ = .notFound) ∧
    (∀ r d, search_bpm ⟨some (200, some (none :: r)), d⟩ = .notFound) ∧
    (∀ sid r, sid ≠ "" →
      search_bpm ⟨some (200, some (some sid :: r)), none⟩ = .notFound) ∧
    (∀ sid r b, sid ≠ "" →
      search_bpm ⟨some (200, some (some sid :: r)), some (429, b)⟩ =
        .rateLimited) ∧
    (∀ sid r ds db, sid ≠ "" → ds ≠ 429 → ds ≠ 200 →
      search_bpm ⟨some (200, some (some sid :: r)), some (ds, db)⟩ =
        .notFound) ∧
    (∀ sid r, sid ≠ "" →
      search_bpm ⟨some (200, some (some sid :: r)), some (200, none)⟩ =
        .notFound) ∧
    (∀ sid r, sid ≠ "" →
      search_bpm ⟨some (200, some (some sid :: r)), some (200, some none)⟩ =
        .notFound) ∧
    (∀ env t, search_bpm env = .value t → t ≠ 0) ∧
    LookupResult.rateLimited ≠ LookupResult.notFound := by
  refine ⟨?_, ?_, ?_, ?_, ?_, ?_, ?_, ?_, ?_, ?_, ?_, ?_, by simp⟩
  · intro d
    rfl
  · intro b d
    rfl
  · intro s b d h1 h2
    simp [search_bpm, h1, h2]
  · intro d
    rfl
  · intro d
    rfl
  · intro r d
    rfl
  · intro sid r h
    simp [search_bpm, h]
  · intro sid r b h
    simp [search_bpm, h]
  · intro sid r ds db h h1 h2
    simp [search_bpm, h, h1, h2]
  · intro sid r h
    simp [search_bpm, h]
  · intro sid r h
    simp [search_bpm, h]
  · intro env t h ht
    subst ht
    obtain ⟨sr, dr⟩ := env
    unfold search_bpm at h
    repeat' split at h
    all_goals simp_all

/-! ## Name normalizer (`bpm.py` 68-91) -/

/-- The characters Python's `\s` (and `str.strip`) treats as whitespace,
restricted to ASCII. -/
def isSpace (c : Char) : Bool :=
  c == ' ' || c == '\t' || c == '\n' || c == '\r' ||
    c == Char.ofNat 11 || c == Char.ofNat 12

/-- The separators `[-–]` of the suffix-stripping patterns. -/
def isDash (c : Char) : Bool :=
  c == '-' || c == '–'

/-- Everything after the first close character (the greedy `[^X]*X` tail
of the group patterns); `none` when the group is never closed. -/
def findCloseCh (close : Char) : List Char → Option (List Char)
  | [] => none
  | c :: t => if c = close then some t else findCloseCh close t

/-- One attempt of `\s*OPEN[^CLOSE]*CLOSE` anchored at the head: maximal
whitespace, the open character, then up to the first close character.
Returns what follows the match. -/
def groupMatchRest (openCh close : Char) (l : List Char) : Option (List Char) :=
  match l.dropWhile isSpace with
  | c :: t => if c = openCh then findCloseCh close t else none
  | [] => none

/-- `re.sub` of the group pattern, fuelled for structural recursion (the
fuel is the scanned text's length, which bounds the scan positions):
leftmost match, continue after the replaced span. -/
def removeGroupsGo (openCh close : Char) : Nat → List Char → List Char
  | _, [] => []
  | 0, l => l
  | fuel + 1, ch :: rest =>
    match groupMatchRest openCh close (ch :: rest) with
    | some r => removeGroupsGo openCh close fuel r
    | none => ch :: removeGroupsGo openCh close fuel rest

/-- `re.sub(r"\s*\(...\)", "", name)` and the bracket variant. -/
def removeGroups (openCh close : Char) (l : List Char) : List Char :=
  removeGroupsGo openCh close l.length l

/-- Case-insensitive literal keyword strip (Python `re.IGNORECASE` over
ASCII keywords): the remainder after the keyword, or `none`. -/
def stripCI : List Char → List Char → Option (List Char)
  | l, [] => some l
  | [], _ :: _ => none
  | c :: t, k :: kt => if c.toLower = k then stripCI t kt else none

/-- Can `.*$` consume this text?  `.` never crosses a newline and `$`
also matches just before a trailing newline, so the text must be
newline-free or carry its only newline as the last character. -/
def tailEndOk (t : List Char) : Bool :=
  !t.contains '\n' || (!t.dropLast.contains '\n' && t.getLast? == some '\n')

/-- Match `.*$` here: `none` on failure, otherwise the characters the
match does not consume (a trailing newline stays, since `$` stops just
before it). -/
def dotStarEnd (t : List Char) : Option (List Char) :=
  if tailEndOk t then some (if t.contains '\n' then ['\n'] else []) else none

/-- Match `\s+.*$` here (greedy whitespace, then to the end). -/
def spacePlusEnd : List Char → Option (List Char)
  | [] => none
  | c :: t => if isSpace c then dotStarEnd (t.dropWhile isSpace) else none

/-- Match `\.?\s+.*$` here (the tail of the feat pattern after its
keyword); the optional dot is tried greedily first. -/
def afterKwFeat (rest : List Char) : Option (List Char) :=
  match rest with
  | '.' :: t => (spacePlusEnd t).orElse (fun _ => spacePlusEnd rest)
  | _ => spacePlusEnd rest

/-- Match `\s*(feat|ft)\.?\s+.*$` right after a separator (alternatives
tried in pattern order). -/
def featAfterDash (t : List Char) : Option (List Char) :=
  ((stripCI (t.dropWhile isSpace) "feat".data).bind afterKwFeat).orElse
    (fun _ => (stripCI (t.dropWhile isSpace) "ft".data).bind afterKwFeat)

/-- One attempt of `\s*[-–]\s*(feat|ft)\.?\s+.*$` anchored at the head. -/
def featMatchAt (l : List Char) : Option (List Char) :=
  match l.dropWhile isSpace with
  | c :: t => if isDash c then featAfterDash t else none
  | [] => none

/-- `re.sub(r"\s*[-–]\s*(feat|ft)\.?\s+.*$", "", name, IGNORECASE)`:
leftmost matching position wins and the match runs to the end. -/
def removeFeatGo : List Char → List Char
  | [] => []
  | c :: rest =>
    match featMatchAt (c :: rest) with
    | some kept => kept
    | none => c :: removeFeatGo rest

/-- Match `\s*(remaster(ed)?|radio edit|single version|bonus track|live).*$`
right after a separator (alternatives in pattern order; greedy `(ed)?`
tried first). -/
def suffixKwAfterDash (t : List Char) : Option (List Char) :=
  ((stripCI (t.dropWhile isSpace) "remaster".data).bind (fun rest =>
      match stripCI rest "ed".data with
      | some rest2 => (dotStarEnd rest2).orElse (fun _ => dotStarEnd rest)
      | none => dotStarEnd rest)).orElse (fun _ =>
  ((stripCI (t.dropWhile isSpace) "radio edit".data).bind dotStarEnd).orElse
    (fun _ =>
  ((stripCI (t.dropWhile isSpace) "single version".data).bind dotStarEnd).orElse
    (fun _ =>
  ((stripCI (t.dropWhile isSpace) "bonus track".data).bind dotStarEnd).orElse
    (fun _ =>
  (stripCI (t.dropWhile isSpace) "live".data).bind dotStarEnd))))

/-- One attempt of the trailing-suffix pattern
`\s*[-–]\s*(remaster(ed)?|radio edit|single version|bonus track|live).*$`
anchored at the head. -/
def suffixMatchAt (l : List Char) : Option (List Char) :=
  match l.dropWhile isSpace with
  | c :: t => if isDash c then suffixKwAfterDash t else none
  | [] => none

/-- `re.sub` of the trailing-suffix pattern (`bpm.py` 80-85). -/
def removeSuffixGo : List Char → List Char
  | [] => []
  | c :: rest =>
    match suffixMatchAt (c :: rest) with
    | some kept => kept
    | none => c :: removeSuffixGo rest

/-- Python `str.strip()`: drop whitespace from both ends. -/
def pyStripList (l : List Char) : List Char :=
  ((l.reverse.dropWhile isSpace).reverse).dropWhile isSpace

/-- `str.strip()` on strings. -/
def pyStrip (s : String) : String :=
  String.mk (pyStripList s.data)

/-- `normalize_track_name` (`bpm.py` 68-86): parentheticals, then
brackets, then the feat suffix, then the trailing keyword suffix, then a
final strip. -/
def normalize_track_name (s : String) : String :=
  String.mk (pyStripList
    (removeSuffixGo (removeFeatGo
      (removeGroups '[' ']' (removeGroups '(' ')' s.data)))))

/-- `normalize_artist` (`bpm.py` 89-91): first comma-separated segment,
stripped. -/
def normalize_artist (s : String) : String :=
  String.mk (pyStripList (s.data.takeWhile (fun c => !(c == ','))))

/-! ## Strip lemmas -/

/-- Dropping a satisfied prefix twice is dropping it once. -/
theorem dropWhile_dropWhile {α} (p : α → Bool) (l : List α) :
    (l.dropWhile p).dropWhile p = l.dropWhile p := by
  induction l with
  | nil => rfl
  | cons c t ih =>
    by_cases hc : p c
    · simp [List.dropWhile_cons, hc, ih]
    · simp [List.dropWhile_cons, hc]

/-- `dropWhile` leaves a list whose head fails the predicate. -/
theorem head_dropWhile_false {α} (p : α → Bool) (l : List α) :
    ∀ c, (l.dropWhile p).head? = some c → p c = false := by
  induction l with
  | nil =>
    intro c h
    cases h
  | cons a t ih =>
    intro c h
    by_cases ha : p a
    · rw [List.dropWhile_cons, if_pos ha] at h
      exact ih c h
    · rw [List.dropWhile_cons, if_neg ha] at h
      simp only [List.head?_cons, Option.some.injEq] at h
      subst h
      simpa using ha

/-- `dropWhile` is the identity on a list whose head fails the
predicate. -/
theorem dropWhile_eq_self_of_head {α} (p : α → Bool) (l : List α)
    (h : ∀ c, l.head? = some c → p c = false) : l.dropWhile p = l := by
  cases l with
  | nil => rfl
  | cons c t => simp [List.dropWhile_cons, h c rfl]

/-- Head of a left-nonempty append. -/
theorem head?_append_left {α} (l₁ l₂ : List α) (h : l₁ ≠ []) :
    (l₁ ++ l₂).head? = l₁.head? := by
  cases l₁ with
  | nil => exact absurd rfl h
  | cons a t => rfl

/-- Last of a right-nonempty append. -/
theorem getLast?_append_right {α} (l₁ l₂ : List α) (h : l₂ ≠ []) :
    (l₁ ++ l₂).getLast? = l₂.getLast? := by
  rw [← List.head?_reverse, ← List.head?_reverse, List.reverse_append]
  exact head?_append_left _ _ (by simpa using h)

/-- Python's `strip` is idempotent. -/
theorem pyStripList_idem (l : List Char) :
    pyStripList (pyStripList l) = pyStripList l := by
  by_cases hk : pyStripList l = []
  · rw [hk]
    rfl
  · have hlast : ∀ c, (pyStripList l).getLast? = some c → isSpace c = false := by
      intro c hc
      have hsuf : pyStripList l <:+ (l.reverse.dropWhile isSpace).reverse :=
        List.dropWhile_suffix isSpace
      obtain ⟨t, ht⟩ := hsuf
      have h1 : ((l.reverse.dropWhile isSpace).reverse).getLast? =
          (pyStripList l).getLast? := by
        rw [← ht]
        exact getLast?_append_right t _ hk
      have h2 : ((l.reverse.dropWhile isSpace).reverse).getLast? =
          (l.reverse.dropWhile isSpace).head? := List.getLast?_reverse _
      exact head_dropWhile_false isSpace l.reverse c (by rw [← h2, h1, hc])
    have hrev : (pyStripList l).reverse.dropWhile isSpace =
        (pyStripList l).reverse := by
      apply dropWhile_eq_self_of_head
      intro c hc
      exact hlast c (by rwa [List.head?_reverse] at hc)
    show (((pyStripList l).reverse.dropWhile isSpace).reverse).dropWhile isSpace
        = pyStripList l
    rw [hrev, List.reverse_reverse]
    show (((l.reverse.dropWhile isSpace).reverse).dropWhile
        isSpace).dropWhile isSpace = pyStripList l
    rw [dropWhile_dropWhile]
    rfl

/-! ## Claim C9 — normalizer rules and removal order -/

/-- C9: parenthetical and bracketed groups are removed before
separator-introduced suffixes, so "Song (Live) - Remastered" fully
reduces to "Song" and "Bohemian Rhapsody (Remastered 2011)" to
"Bohemian Rhapsody"; `normalize_artist` keeps the first comma-separated
segment; both functions return a whitespace-trimmed result on every
input (and, being total, never raise). -/
theorem C9_normalizer_spec :
    normalize_track_name "Song (Live) - Remastered" = "Song" ∧
    normalize_track_name "Bohemian Rhapsody (Remastered 2011)" =
      "Bohemian Rhapsody" ∧
    normalize_artist "Queen, David Bowie" = "Queen" ∧
    (∀ s : String, pyStrip (normalize_track_name s) = normalize_track_name s) ∧
    (∀ s : String, pyStrip (normalize_artist s) = normalize_artist s) := by
  refine ⟨by decide, by decide, by decide, ?_, ?_⟩
  · intro s
    show String.mk (pyStripList (pyStripList _)) = _
    rw [pyStripList_idem]
    rfl
  · intro s
    show String.mk (pyStripList (pyStripList _)) = _
    rw [pyStripList_idem]
    rfl
